import Mathlib

/-!
Verification of the syndication reconciliation engine of
`indiekit-endpoint-syndicate` (`src/lib/utils.js` and the syndicate
controller), via a shallow embedding in Lean 4.

JavaScript primitives are modelled as follows:
* `new URL(s).origin` is modelled by `parseOrigin : String → Option String`:
  `none` models a thrown `TypeError` (invalid URL); for the special schemes
  `http`/`https` the origin is `scheme://host` with lower-cased scheme and
  host and with the default port elided; any other valid `scheme:` prefix
  yields the opaque origin `"null"` as WHATWG does.
* `hay.includes(needle)` (JS string containment) is modelled by
  `strIncludes`.
* exceptions are modelled with `Except Unit`.
-/

namespace Syndicate

/-- ASCII alphabetic character test. -/
def isAlpha (c : Char) : Bool :=
  ('a' ≤ c && c ≤ 'z') || ('A' ≤ c && c ≤ 'Z')

/-- ASCII digit test. -/
def isDigitCh (c : Char) : Bool :=
  '0' ≤ c && c ≤ '9'

/-- Characters allowed in a URL scheme after the first (alphabetic) one. -/
def isSchemeChar (c : Char) : Bool :=
  isAlpha c || isDigitCh c || c == '+' || c == '-' || c == '.'

/-- Split a character list at the first `':'`, returning the (reversed
accumulator fixed) scheme characters and the remainder; fails when a
non-scheme character or the end of input is reached first. -/
def schemeSplit : List Char → List Char → Option (List Char × List Char)
  | _, [] => none
  | acc, c :: cs =>
    if c == ':' then
      if acc.isEmpty then none else some (acc.reverse, cs)
    else if isSchemeChar c then schemeSplit (c :: acc) cs
    else none

/-- Authority = `[userinfo@]host[:port]`; keep what follows the last `'@'`. -/
def afterLastAt (cs : List Char) : List Char :=
  (cs.reverse.takeWhile (fun c => c != '@')).reverse

/-- Split `host[:port]` at the first `':'`. -/
def splitHostPort (cs : List Char) : List Char × List Char :=
  (cs.takeWhile (fun c => c != ':'), (cs.dropWhile (fun c => c != ':')).drop 1)

/-- Model of `new URL(s).origin`: `none` models a thrown `TypeError`. -/
def parseOrigin (s : String) : Option String :=
  match s.toList with
  | [] => none
  | c0 :: _ =>
    if isAlpha c0 then
      match schemeSplit [] s.toList with
      | none => none
      | some (schemeCs, rest) =>
        let scheme := (schemeCs.map Char.toLower).asString
        if scheme = "http" ∨ scheme = "https" then
          match rest with
          | '/' :: '/' :: rest2 =>
            let auth := rest2.takeWhile (fun c => c != '/' && c != '?' && c != '#')
            let hostport := afterLastAt auth
            let (host, port) := splitHostPort hostport
            if host.isEmpty then none
            else if !(port.all isDigitCh) then none
            else
              let host' := (host.map Char.toLower).asString
              let defaultPort := if scheme = "http" then "80" else "443"
              let portStr := port.asString
              let originPort :=
                if portStr = "" ∨ portStr = defaultPort then "" else ":" ++ portStr
              some (scheme ++ "://" ++ host' ++ originPort)
          | _ => none
        else some "null"
    else none

/-- `startsWithL s t`: `s` is an initial segment of `t`. -/
def startsWithL : List Char → List Char → Bool
  | [], _ => true
  | _ :: _, [] => false
  | a :: s, b :: t => a == b && startsWithL s t

/-- `occursIn s t`: `s` occurs contiguously inside `t`. -/
def occursIn (s : List Char) : List Char → Bool
  | [] => s.isEmpty
  | b :: t => startsWithL s (b :: t) || occursIn s t

/-- Model of JS `hay.includes(needle)`. -/
def strIncludes (hay needle : String) : Bool :=
  occursIn needle.toList hay.toList

/-- Embedding of `hasSyndicationUrl(syndicatedUrls, syndicateTo)` from
`src/lib/utils.js`: `Array.prototype.some` evaluated left to right with
short-circuiting; each examined entry is parsed with `new URL` (which may
throw, modelled by `.error ()`), and the check is
`syndicateTo.includes(origin)` — raw string containment, the identifier
itself is never parsed. -/
def hasSyndicationUrl (syndicatedUrls : List String) (syndicateTo : String) :
    Except Unit Bool :=
  match syndicatedUrls with
  | [] => .ok false
  | url :: rest =>
    match parseOrigin url with
    | none => .error ()
    | some origin =>
      if strIncludes syndicateTo origin then .ok true
      else hasSyndicationUrl rest syndicateTo

/-- Value of the JF2 `mp-syndicate-to` property: either a single scalar
identifier or a multi-value list (`Array.isArray` discriminates in the
source). -/
inductive SyndicateToField where
  | scalar (u : String)
  | list (us : List String)
deriving DecidableEq

/-- The JF2 properties of a post, restricted to the fields the engine reads
or writes. `syndication = none` models an absent `properties.syndication`;
`some l` models a present array (a JS array, even empty, is truthy). -/
structure Properties where
  url : String
  mpSyndicateTo : SyndicateToField
  syndication : Option (List String)
deriving DecidableEq

/-- Outcome of one call to a target's `syndicate` delivery operation:
a returned URL, a falsy return value, or a thrown error (caught by the
engine). -/
inductive SynOutcome where
  | url (s : String)
  | falsy
  | throws

/-- A configured syndication target. `uid = none` models a target whose
`info?.uid` is missing or falsy. The delivery operation receives the post's
properties (the source calls `target.syndicate(properties, publication)`;
the publication context is fixed for a run and absorbed into the
function). -/
structure Target where
  uid : Option String
  syndicate : Properties → SynOutcome

/-- Publication configuration: the syndication target registry. -/
structure Publication where
  syndicationTargets : List Target

/-- Embedding of `getSyndicationTarget(syndicationTargets, syndicateTo)`:
`Array.prototype.find`, skipping targets without `info?.uid`, comparing
`new URL(target.info.uid).origin === new URL(syndicateTo).origin`; either
`new URL` may throw (`.error ()`). -/
def getSyndicationTarget (syndicationTargets : List Target)
    (syndicateTo : String) : Except Unit (Option Target) :=
  match syndicationTargets with
  | [] => .ok none
  | t :: rest =>
    match t.uid with
    | none => getSyndicationTarget rest syndicateTo
    | some uid =>
      match parseOrigin uid with
      | none => .error ()
      | some targetOrigin =>
        match parseOrigin syndicateTo with
        | none => .error ()
        | some syndicateToOrigin =>
          if targetOrigin = syndicateToOrigin then .ok (some t)
          else getSyndicationTarget rest syndicateTo

/-- `Array.isArray` normalization of the `mp-syndicate-to` field
(`src/lib/utils.js` lines 105-107). -/
def normalizeSyndicateTo : SyndicateToField → List String
  | .scalar u => [u]
  | .list us => us

/-- The properties object as the loop sees it when the accumulator holds
`syn`: `syndicatedUrls` aliases `properties.syndication` when that field
was present (a truthy array), so in-place pushes are visible through
`properties`; when the field was absent the pushes go to a fresh array and
`properties.syndication` stays absent. -/
def propsDuring (props0 : Properties) (syn : List String) : Properties :=
  { props0 with syndication := props0.syndication.map (fun _ => syn) }

/-- The `for (const url of syndicateToUrls)` loop of `syndicateToTargets`:
resolve the target, compute the dedup check (both before the guard, either
may throw), then attempt delivery when a target was found and the dedup
check is false; a returned URL is pushed onto the success accumulator, a
falsy result or a thrown delivery error pushes `target.info.uid` onto
`failedTargets`. -/
def runLoop (targets : List Target) (props0 : Properties) :
    List String → List String → List String →
    Except Unit (List String × List String)
  | [], syn, failed => .ok (syn, failed)
  | url :: rest, syn, failed =>
    match getSyndicationTarget targets url with
    | .error e => .error e
    | .ok target =>
      match hasSyndicationUrl syn url with
      | .error e => .error e
      | .ok alreadySyndicated =>
        match target with
        | none => runLoop targets props0 rest syn failed
        | some t =>
          if alreadySyndicated then runLoop targets props0 rest syn failed
          else
            match t.syndicate (propsDuring props0 syn) with
            | .url s => runLoop targets props0 rest (syn ++ [s]) failed
            | .falsy => runLoop targets props0 rest syn (failed ++ [t.uid.getD ""])
            | .throws => runLoop targets props0 rest syn (failed ++ [t.uid.getD ""])

/-- Result of `syndicateToTargets`: the spread
`{...(failedTargets.length > 0 && {failedTargets}), syndicatedUrls}` makes
`failedTargets` present exactly when non-empty. -/
structure SynResult where
  failedTargets : Option (List String)
  syndicatedUrls : List String
deriving DecidableEq

/-- Embedding of `syndicateToTargets(publication, properties)` from
`src/lib/utils.js` lines 100-138. Besides the returned object it also
returns the post-state of the `properties` object, because
`syndicatedUrls` aliases `properties.syndication` when that field is
present and `push` mutates it in place. The function declares exactly two
parameters; there is no `force` option. -/
def syndicateToTargets (publication : Publication) (properties : Properties) :
    Except Unit (SynResult × Properties) :=
  let syndicateToUrls := normalizeSyndicateTo properties.mpSyndicateTo
  let syndicatedUrls0 := properties.syndication.getD []
  match runLoop publication.syndicationTargets properties
      syndicateToUrls syndicatedUrls0 [] with
  | .error e => .error e
  | .ok (syn, failed) =>
    .ok ({ failedTargets := if failed.length > 0 then some failed else none,
           syndicatedUrls := syn },
         propsDuring properties syn)

/-- Extra-argument call semantics: `syndicatePost` invokes
`syndicateToTargets(publication, postData.properties, { force })`, but the
callee declares only two parameters, so the third argument is ignored by
JavaScript call semantics. -/
structure SynOptions where
  force : Bool
deriving DecidableEq

/-- `syndicateToTargets` as called with an options object: the extra
argument is dropped. -/
def syndicateToTargetsWithOptions (publication : Publication)
    (properties : Properties) (_options : SynOptions) :
    Except Unit (SynResult × Properties) :=
  syndicateToTargets publication properties

/-- The `replace` object of the Micropub update body built by
`syndicatePost`. -/
structure ReplaceObj where
  mpSyndicateTo : Option (List String)
  syndication : Option (List String)
deriving DecidableEq

/-- The Micropub update instruction built by `syndicatePost`
(`src/lib/utils.js` lines 186-194). -/
structure UpdateBody where
  action : String
  url : String
  delete : Option (List String)
  replace : ReplaceObj
deriving DecidableEq

/-- Embedding of the update-body construction in `syndicatePost`:
`...(!failedTargets && { delete: ["mp-syndicate-to"] })` and
`replace: { ...(failedTargets && {"mp-syndicate-to": failedTargets}),
...(syndicatedUrls && { syndication: syndicatedUrls }) }`.
`failedTargets` is `undefined` or a non-empty array; `syndicatedUrls` is
always an array, and arrays are truthy, so `syndication` is always
replaced. -/
def buildUpdateBody (url : String) (failedTargets : Option (List String))
    (syndicatedUrls : List String) : UpdateBody :=
  { action := "update"
    url := url
    delete := if failedTargets.isNone then some ["mp-syndicate-to"] else none
    replace :=
      { mpSyndicateTo := failedTargets
        syndication := some syndicatedUrls } }

/-- Post data as handled by the batch loop of `syndicateController.post`. -/
structure PostData where
  properties : Properties
deriving DecidableEq

/-- What the batch loop reads off a successful `syndicatePost` call. -/
structure SPResult where
  url : String
  failedTargets : Option (List String)
  syndicatedUrls : List String
deriving DecidableEq

/-- A per-item record pushed onto `results` by the batch loop: the
`success: true` shape with `syndicatedUrls` and optional `failedTargets`,
or the `success: false` shape with the caught error message. -/
inductive ItemOutcome where
  | ok (url : String) (syndicatedUrls : List String)
      (failedTargets : Option (List String))
  | failed (url : String) (error : String)
deriving DecidableEq

/-- Embedding of the batch loop of `syndicateController.post`
(`src/lib/utils.js`, controller part, lines 290-329): each post is run
through the single-item pipeline (`syndicatePost`, abstracted as `run`,
which may throw); a throwing item is caught, recorded as a failed outcome,
and the loop continues with the next item. Returns the ordered outcome
list and the final `successCount` and `failCount`. The inter-item delay
only suspends and is irrelevant to the recorded outcomes. -/
def processBatch (run : PostData → Except String SPResult) :
    List PostData → List ItemOutcome × Nat × Nat
  | [] => ([], 0, 0)
  | p :: rest =>
    match run p with
    | .ok r =>
      let (outs, s, f) := processBatch run rest
      (.ok r.url r.syndicatedUrls r.failedTargets :: outs, s + 1, f)
    | .error e =>
      let (outs, s, f) := processBatch run rest
      (.failed p.properties.url e :: outs, s, f + 1)

/-- Spec-side characterization of one dedup comparison: the entry's parsed
origin occurs as a substring of the raw identifier string. -/
def entryOriginIncluded (syndicateTo u : String) : Bool :=
  match parseOrigin u with
  | some origin => strIncludes syndicateTo origin
  | none => false

/-- A target's `info.uid`, when present, parses as a URL. -/
def uidWellFormed (t : Target) : Bool :=
  match t.uid with
  | none => true
  | some u => (parseOrigin u).isSome

/-- Per-item outcome record the batch loop would push for a post. -/
def outcomeOf (run : PostData → Except String SPResult) (p : PostData) :
    ItemOutcome :=
  match run p with
  | .ok r => .ok r.url r.syndicatedUrls r.failedTargets
  | .error e => .failed p.properties.url e

/-- Whether the single-item pipeline completes without throwing. -/
def runSucceeds (run : PostData → Except String SPResult) (p : PostData) :
    Bool :=
  match run p with
  | .ok _ => true
  | .error _ => false

/-! Concrete fixtures used by counterexamples and witnesses. -/

/-- Target on origin `https://a.example` whose delivery returns
`https://a.example/2`. -/
def tgtA : Target :=
  { uid := some "https://a.example", syndicate := fun _ => .url "https://a.example/2" }

/-- Registry holding only `tgtA`. -/
def pubA : Publication := { syndicationTargets := [tgtA] }

/-- Post with a prior success recorded for `https://a.example` and that
same target still pending. -/
def propsC1 : Properties :=
  { url := "https://me.example/p1"
    mpSyndicateTo := .scalar "https://a.example"
    syndication := some ["https://a.example/1"] }

/-- Target on origin `https://a.example` delivering `https://a.example/9`. -/
def tgtA9 : Target :=
  { uid := some "https://a.example", syndicate := fun _ => .url "https://a.example/9" }

/-- Registry holding only `tgtA9`. -/
def pubA9 : Publication := { syndicationTargets := [tgtA9] }

/-- Post with an unrelated prior success (origin `https://b.example`) and
target `https://a.example` pending. -/
def propsC4 : Properties :=
  { url := "https://me.example/p4"
    mpSyndicateTo := .scalar "https://a.example"
    syndication := some ["https://b.example/1"] }

/-- Delivery operation that inspects the shape of the pending-target
field of the properties it receives. -/
def synShapeSensitive (p : Properties) : SynOutcome :=
  match p.mpSyndicateTo with
  | .scalar _ => .url "https://s.example/1"
  | .list _ => .url "https://l.example/1"

/-- Target whose delivery depends on the pending-target field's shape. -/
def tgtShape : Target :=
  { uid := some "https://a.example", syndicate := synShapeSensitive }

/-- Registry holding only `tgtShape`. -/
def pubShape : Publication := { syndicationTargets := [tgtShape] }

/-- Post requesting `https://a.example` as a scalar. -/
def propsScalar : Properties :=
  { url := "https://me.example/p5"
    mpSyndicateTo := .scalar "https://a.example"
    syndication := none }

/-- Post requesting `https://a.example` as a one-element list. -/
def propsList : Properties :=
  { url := "https://me.example/p5"
    mpSyndicateTo := .list ["https://a.example"]
    syndication := none }

/-- Target whose delivery returns a URL on a different origin
(`https://b.example`) than its own uid. -/
def tgtForeign : Target :=
  { uid := some "https://a.example", syndicate := fun _ => .url "https://b.example/1" }

/-- Registry holding only `tgtForeign`. -/
def pubForeign : Publication := { syndicationTargets := [tgtForeign] }

/-- Post with an empty (but present) syndication list and target
`https://a.example` pending. -/
def propsC6 : Properties :=
  { url := "https://me.example/p6"
    mpSyndicateTo := .scalar "https://a.example"
    syndication := some [] }

/-- Result of the first reconciliation run on `propsC6`. -/
def r1C6 : SynResult :=
  { failedTargets := none, syndicatedUrls := ["https://b.example/1"] }

/-- Post state after the first reconciliation run on `propsC6`. -/
def props1C6 : Properties :=
  { propsC6 with syndication := some ["https://b.example/1"] }

/-- Post with empty present syndication list, used by the idempotence
witness. -/
def propsC6w : Properties :=
  { url := "https://me.example/p6w"
    mpSyndicateTo := .scalar "https://a.example"
    syndication := some [] }

/-- Result of the first reconciliation run on `propsC6w` under `pubA`. -/
def rC6w : SynResult :=
  { failedTargets := none, syndicatedUrls := ["https://a.example/2"] }

/-- Post state after the first reconciliation run on `propsC6w`. -/
def props1C6w : Properties :=
  { propsC6w with syndication := some ["https://a.example/2"] }

/-- Target on origin `https://a.example` whose delivery returns a falsy
value (soft failure). -/
def tgtFalsy : Target :=
  { uid := some "https://a.example", syndicate := fun _ => .falsy }

/-- Registry holding only `tgtFalsy`. -/
def pubFalsy : Publication := { syndicationTargets := [tgtFalsy] }

/-- Post requesting two identifiers that share the origin
`https://a.example`. -/
def propsC8 : Properties :=
  { url := "https://me.example/p8"
    mpSyndicateTo := .list ["https://a.example/x", "https://a.example/y"]
    syndication := none }

/-- Target with a constant, shape-insensitive delivery operation. -/
def tgtConst : Target :=
  { uid := some "https://a.example", syndicate := fun _ => .url "https://a.example/1" }

/-- Registry holding only `tgtConst`. -/
def pubConst : Publication := { syndicationTargets := [tgtConst] }

/-! Helper lemmas (shared, not tied to a single claim). -/

theorem hasSyndicationUrl_char (l : List String) (s : String)
    (h : l.all (fun u => (parseOrigin u).isSome) = true) :
    hasSyndicationUrl l s = .ok (l.any (fun u => entryOriginIncluded s u)) := by
  induction l with
  | nil => rfl
  | cons u rest ih =>
    rw [List.all_cons, Bool.and_eq_true] at h
    obtain ⟨hu, hrest⟩ := h
    obtain ⟨o, ho⟩ := Option.isSome_iff_exists.mp hu
    have hinc : entryOriginIncluded s u = strIncludes s o := by
      unfold entryOriginIncluded
      rw [ho]
    rw [List.any_cons, hinc]
    cases hc : strIncludes s o with
    | true =>
      simp only [hasSyndicationUrl, ho, hc, if_true, Bool.true_or]
    | false =>
      simp [hasSyndicationUrl, ho, hc, ih hrest]

theorem getSyndicationTarget_total (ts : List Target) (s : String)
    (hs : (parseOrigin s).isSome = true)
    (ht : ts.all uidWellFormed = true) :
    ∃ r, getSyndicationTarget ts s = .ok r := by
  obtain ⟨so, hso⟩ := Option.isSome_iff_exists.mp hs
  induction ts with
  | nil => exact ⟨none, rfl⟩
  | cons t rest ih =>
    rw [List.all_cons, Bool.and_eq_true] at ht
    obtain ⟨htw, hrest⟩ := ht
    obtain ⟨rr, hrr⟩ := ih hrest
    cases hu : t.uid with
    | none =>
      exact ⟨rr, by simp only [getSyndicationTarget, hu, hrr]⟩
    | some u =>
      have : (parseOrigin u).isSome = true := by
        unfold uidWellFormed at htw
        rw [hu] at htw
        exact htw
      obtain ⟨uo, huo⟩ := Option.isSome_iff_exists.mp this
      by_cases he : uo = so
      · exact ⟨some t, by simp [getSyndicationTarget, hu, huo, hso, he]⟩
      · exact ⟨rr, by simp only [getSyndicationTarget, hu, huo, hso, if_neg he, hrr]⟩

/-- C2: the claim that `hasSyndicationUrl` decides origin equality is
false: the check is raw substring containment of the entry's origin in the
unparsed identifier, so an identifier on the distinct origin
`https://a.example.com` is reported as already satisfied by a success
entry on origin `https://a.example`. -/
theorem c2_counterexample_substring_not_origin_equality :
    hasSyndicationUrl ["https://a.example/post"] "https://a.example.com/" = .ok true ∧
    parseOrigin "https://a.example/post" = some "https://a.example" ∧
    parseOrigin "https://a.example.com/" = some "https://a.example.com" ∧
    ("https://a.example" : String) ≠ "https://a.example.com" :=
  ⟨rfl, rfl, rfl, by decide⟩

/-- C2 (amended): when every success entry parses as a URL,
`hasSyndicationUrl` returns true iff some entry's origin occurs as a
substring of the raw identifier string; the identifier itself is never
parsed, so the relation is substring containment, not origin equality. -/
theorem c2_dedup_matches_by_substring_of_raw_identifier
    (l : List String) (s : String)
    (h : l.all (fun u => (parseOrigin u).isSome) = true) :
    hasSyndicationUrl l s = .ok (l.any (fun u => entryOriginIncluded s u)) :=
  hasSyndicationUrl_char l s h

/-- C2 witness: the amended theorem applied to a concrete success list and
identifier. -/
theorem c2_dedup_matches_by_substring_of_raw_identifier_witness :
    ((["https://a.example/post"] : List String).all
      (fun u => (parseOrigin u).isSome) = true) ∧
    hasSyndicationUrl ["https://a.example/post"] "https://a.example.com/" =
      .ok ((["https://a.example/post"] : List String).any
        (fun u => entryOriginIncluded "https://a.example.com/" u)) :=
  ⟨by decide,
   c2_dedup_matches_by_substring_of_raw_identifier
     ["https://a.example/post"] "https://a.example.com/" (by decide)⟩

/-- C3: the totality claim is false: `hasSyndicationUrl` throws (rather
than returning false) when a success entry fails to parse, and
`getSyndicationTarget` throws (rather than returning not-found) when the
identifier fails to parse and a registered target has a uid. -/
theorem c3_counterexample_parse_failures_throw :
    hasSyndicationUrl ["nota url"] "https://a.example" = .error () ∧
    getSyndicationTarget [tgtA] "::::" = .error () :=
  ⟨rfl, rfl⟩

/-- C3 (amended): the dedup check and target resolution are total only on
well-formed inputs: when every success entry parses, `hasSyndicationUrl`
returns a boolean, and when the identifier parses and every registered
uid parses, `getSyndicationTarget` returns a (possibly absent) target; a
parse failure on the examined strings instead surfaces as a thrown
error. -/
theorem c3_total_only_on_wellformed_inputs
    (l : List String) (s : String) (ts : List Target)
    (hl : l.all (fun u => (parseOrigin u).isSome) = true)
    (hs : (parseOrigin s).isSome = true)
    (ht : ts.all uidWellFormed = true) :
    (∃ b, hasSyndicationUrl l s = .ok b) ∧
    ∃ r, getSyndicationTarget ts s = .ok r :=
  ⟨⟨l.any (fun u => entryOriginIncluded s u), hasSyndicationUrl_char l s hl⟩,
   getSyndicationTarget_total ts s hs ht⟩

/-- C3 witness: the amended totality theorem applied to a concrete
well-formed success list, identifier, and registry. -/
theorem c3_total_only_on_wellformed_inputs_witness :
    ((["https://a.example/post"] : List String).all
      (fun u => (parseOrigin u).isSome) = true) ∧
    ((parseOrigin "https://b.example").isSome = true) ∧
    ([tgtA].all uidWellFormed = true) ∧
    ((∃ b, hasSyndicationUrl ["https://a.example/post"] "https://b.example" = .ok b) ∧
     ∃ r, getSyndicationTarget [tgtA] "https://b.example" = .ok r) :=
  ⟨by decide, by decide, by decide,
   c3_total_only_on_wellformed_inputs ["https://a.example/post"]
     "https://b.example" [tgtA] (by decide) (by decide) (by decide)⟩

/-- C1: the spec's force mode is right about the intent (the caller
`syndicatePost` documents and passes a `force` option meant to skip dedup)
but `syndicateToTargets` declares only two parameters and ignores it: at
the failing input — a prior success recorded for origin
`https://a.example` and that same target re-requested with force — the
seeded success entry is not dropped, the target is not re-attempted (its
delivery would have returned `https://a.example/2`), and the returned
`syndicatedUrls` still holds only the prior entry. -/
theorem c1_force_is_ignored_at_failing_input :
    syndicateToTargetsWithOptions pubA propsC1 { force := true } =
      .ok ({ failedTargets := none,
             syndicatedUrls := ["https://a.example/1"] },
           propsC1) :=
  rfl

/-- C7: the write-back body uses exactly one of delete/replace for the
pending-target field, chosen by presence of `failedTargets`: when absent,
`delete` is exactly `["mp-syndicate-to"]` and the replace object carries no
`mp-syndicate-to`; when present, `delete` is absent and the replace object
carries exactly the failed identifiers. -/
theorem c7_clear_vs_replace_mutually_exclusive
    (url : String) (failedTargets : Option (List String))
    (syndicatedUrls : List String) :
    (buildUpdateBody url failedTargets syndicatedUrls).delete =
      (if failedTargets.isNone then some ["mp-syndicate-to"] else none) ∧
    (buildUpdateBody url failedTargets syndicatedUrls).replace.mpSyndicateTo =
      failedTargets ∧
    ((buildUpdateBody url failedTargets syndicatedUrls).delete.isSome =
      failedTargets.isNone) := by
  refine ⟨rfl, rfl, ?_⟩
  cases failedTargets <;> rfl

/-- C10: `syndicateToTargets` declares only two parameters and never reads
a force option, so invocations with `{force: true}`, `{force: false}`, or
no options object at all are indistinguishable by their outputs. -/
theorem c10_third_argument_is_ignored
    (publication : Publication) (properties : Properties)
    (o₁ o₂ : SynOptions) :
    syndicateToTargetsWithOptions publication properties o₁ =
      syndicateToTargetsWithOptions publication properties o₂ ∧
    syndicateToTargetsWithOptions publication properties o₁ =
      syndicateToTargets publication properties :=
  ⟨rfl, rfl⟩

theorem runLoop_syn_extends (targets : List Target) (p0 : Properties) :
    ∀ (urls syn failed syn' failed' : List String),
      runLoop targets p0 urls syn failed = .ok (syn', failed') →
      ∃ ext, syn' = syn ++ ext := by
  intro urls
  induction urls with
  | nil =>
    intro syn failed syn' failed' h
    simp only [runLoop, Except.ok.injEq, Prod.mk.injEq] at h
    exact ⟨[], by simp [h.1.symm]⟩
  | cons url rest ih =>
    intro syn failed syn' failed' h
    simp only [runLoop] at h
    split at h
    · exact absurd h (by simp)
    · split at h
      · exact absurd h (by simp)
      · split at h
        · exact ih syn failed syn' failed' h
        · split at h
          · exact ih syn failed syn' failed' h
          · split at h
            · obtain ⟨ext, hext⟩ := ih _ _ _ _ h
              rename_i s _
              refine ⟨s :: ext, ?_⟩
              rw [hext]
              simp
            · exact ih _ _ _ _ h
            · exact ih _ _ _ _ h

theorem runLoop_failed_le (targets : List Target) (p0 : Properties) :
    ∀ (urls syn failed syn' failed' : List String),
      runLoop targets p0 urls syn failed = .ok (syn', failed') →
      failed'.length ≤ failed.length + urls.length := by
  intro urls
  induction urls with
  | nil =>
    intro syn failed syn' failed' h
    simp only [runLoop, Except.ok.injEq, Prod.mk.injEq] at h
    simp [h.2.symm]
  | cons url rest ih =>
    intro syn failed syn' failed' h
    simp only [runLoop] at h
    split at h
    · exact absurd h (by simp)
    · split at h
      · exact absurd h (by simp)
      · split at h
        · have := ih _ _ _ _ h
          simp only [List.length_cons]
          omega
        · split at h
          · have := ih _ _ _ _ h
            simp only [List.length_cons]
            omega
          · split at h
            · have := ih _ _ _ _ h
              simp only [List.length_cons]
              omega
            · have := ih _ _ _ _ h
              simp at this ⊢
              omega
            · have := ih _ _ _ _ h
              simp at this ⊢
              omega

theorem runLoop_resolves (targets : List Target) (p0 : Properties) :
    ∀ (urls syn failed : List String) (out : List String × List String),
      runLoop targets p0 urls syn failed = .ok out →
      ∀ url ∈ urls, ∃ o, getSyndicationTarget targets url = .ok o := by
  intro urls
  induction urls with
  | nil =>
    intro syn failed out _ url hu
    simp at hu
  | cons u rest ih =>
    intro syn failed out h url hu
    simp only [runLoop] at h
    rcases List.mem_cons.mp hu with rfl | hmem
    · split at h
      · exact absurd h (by simp)
      · rename_i target ho
        exact ⟨target, ho⟩
    · split at h
      · exact absurd h (by simp)
      · split at h
        · exact absurd h (by simp)
        · split at h
          · exact ih _ _ _ h url hmem
          · split at h
            · exact ih _ _ _ h url hmem
            · split at h
              · exact ih _ _ _ h url hmem
              · exact ih _ _ _ h url hmem
              · exact ih _ _ _ h url hmem

theorem runLoop_all_skip (targets : List Target) (p0 : Properties) :
    ∀ (urls syn failed : List String),
      (∀ url ∈ urls,
        (∃ o, getSyndicationTarget targets url = .ok o) ∧
        ∃ b, hasSyndicationUrl syn url = .ok b ∧
          (b = true ∨ getSyndicationTarget targets url = .ok none)) →
      runLoop targets p0 urls syn failed = .ok (syn, failed) := by
  intro urls
  induction urls with
  | nil =>
    intro syn failed _
    rfl
  | cons url rest ih =>
    intro syn failed h
    obtain ⟨⟨o, ho⟩, b, hb, hcase⟩ := h url (List.mem_cons_self url rest)
    have hrest := fun u hu => h u (List.mem_cons_of_mem url hu)
    rcases hcase with hbt | hnone
    · subst hbt
      cases o with
      | none => simp [runLoop, ho, hb, ih syn failed hrest]
      | some t => simp [runLoop, ho, hb, ih syn failed hrest]
    · have hno : o = none := by
        rw [ho] at hnone
        exact Except.ok.inj hnone
      subst hno
      simp [runLoop, ho, hb, ih syn failed hrest]

theorem getSyndicationTarget_mem (ts : List Target) (s : String) :
    ∀ t : Target, getSyndicationTarget ts s = .ok (some t) → t ∈ ts := by
  induction ts with
  | nil =>
    intro t h
    simp [getSyndicationTarget] at h
  | cons a rest ih =>
    intro t h
    simp only [getSyndicationTarget] at h
    split at h
    · exact List.mem_cons_of_mem a (ih t h)
    · split at h
      · exact absurd h (by simp)
      · split at h
        · exact absurd h (by simp)
        · split at h
          · have ha : a = t := by
              simp only [Except.ok.injEq, Option.some.injEq] at h
              exact h
            exact ha ▸ List.mem_cons_self a rest
          · exact List.mem_cons_of_mem a (ih t h)

theorem runLoop_mp_irrel (targets : List Target) (props : Properties)
    (f1 f2 : SyndicateToField)
    (h : ∀ t ∈ targets, ∀ (q : Properties) (g1 g2 : SyndicateToField),
      t.syndicate { q with mpSyndicateTo := g1 } =
      t.syndicate { q with mpSyndicateTo := g2 }) :
    ∀ (urls syn failed : List String),
      runLoop targets { props with mpSyndicateTo := f1 } urls syn failed =
      runLoop targets { props with mpSyndicateTo := f2 } urls syn failed := by
  intro urls
  induction urls with
  | nil =>
    intro syn failed
    rfl
  | cons url rest ih =>
    intro syn failed
    simp only [runLoop]
    cases hg : getSyndicationTarget targets url with
    | error e => rfl
    | ok target =>
      cases hh : hasSyndicationUrl syn url with
      | error e => rfl
      | ok already =>
        cases target with
        | none => exact ih syn failed
        | some t =>
          cases already with
          | true => simp [ih syn failed]
          | false =>
            have hmem : t ∈ targets := getSyndicationTarget_mem targets url t hg
            have hsy : t.syndicate (propsDuring { props with mpSyndicateTo := f1 } syn) =
                t.syndicate (propsDuring { props with mpSyndicateTo := f2 } syn) :=
              h t hmem (propsDuring props syn) f1 f2
            cases hs : t.syndicate (propsDuring { props with mpSyndicateTo := f1 } syn) with
            | url s =>
              have hs2 : t.syndicate (propsDuring { props with mpSyndicateTo := f2 } syn) =
                  .url s := hsy ▸ hs
              simp [hs, hs2, ih (syn ++ [s]) failed]
            | falsy =>
              have hs2 : t.syndicate (propsDuring { props with mpSyndicateTo := f2 } syn) =
                  .falsy := hsy ▸ hs
              simp [hs, hs2, ih syn (failed ++ [t.uid.getD ""])]
            | throws =>
              have hs2 : t.syndicate (propsDuring { props with mpSyndicateTo := f2 } syn) =
                  .throws := hsy ▸ hs
              simp [hs, hs2, ih syn (failed ++ [t.uid.getD ""])]

theorem syndicateToTargets_inv (pub : Publication) (props : Properties)
    (r : SynResult) (props' : Properties)
    (h : syndicateToTargets pub props = .ok (r, props')) :
    ∃ failed, runLoop pub.syndicationTargets props
        (normalizeSyndicateTo props.mpSyndicateTo) (props.syndication.getD []) [] =
        .ok (r.syndicatedUrls, failed) ∧
      r.failedTargets = (if failed.length > 0 then some failed else none) ∧
      props' = propsDuring props r.syndicatedUrls := by
  simp only [syndicateToTargets] at h
  split at h
  · exact absurd h (by simp)
  · rename_i syn failed hrun
    simp only [Except.ok.injEq, Prod.mk.injEq] at h
    obtain ⟨hr, hp⟩ := h
    subst hr
    subst hp
    exact ⟨failed, hrun, rfl, rfl⟩

/-- C4: the claim that the success accumulator is seeded from a copy is
false: `syndicatedUrls` aliases `properties.syndication || []`, so a
successful delivery pushes onto the input post's own list; at the concrete
input the post enters with `syndication = ["https://b.example/1"]` and
leaves the run with `syndication = ["https://b.example/1",
"https://a.example/9"]`. -/
theorem c4_counterexample_input_syndication_mutated :
    syndicateToTargets pubA9 propsC4 =
      .ok ({ failedTargets := none,
             syndicatedUrls := ["https://b.example/1", "https://a.example/9"] },
           { propsC4 with
              syndication := some ["https://b.example/1", "https://a.example/9"] }) ∧
    some ["https://b.example/1", "https://a.example/9"] ≠ propsC4.syndication :=
  ⟨rfl, by decide⟩

/-- C4 (amended): the accumulator aliases the existing list rather than
copying it: after a run, a post that entered with a present `syndication`
field holds the run's full final `syndicatedUrls` (its prior entries as a
prefix), and a post that entered without the field still has no
`syndication` field; the input list object is mutated in place whenever a
new delivery succeeds. -/
theorem c4_syndication_aliased_not_copied (pub : Publication)
    (props : Properties) (r : SynResult) (props' : Properties)
    (h : syndicateToTargets pub props = .ok (r, props')) :
    props'.syndication = props.syndication.map (fun _ => r.syndicatedUrls) ∧
    ∃ ext, r.syndicatedUrls = props.syndication.getD [] ++ ext := by
  obtain ⟨failed, hrun, hft, hp⟩ := syndicateToTargets_inv pub props r props' h
  constructor
  · rw [hp]
    rfl
  · exact runLoop_syn_extends pub.syndicationTargets props _ _ _ _ _ hrun

/-- C4 witness: the amended theorem applied to the concrete mutated run. -/
theorem c4_syndication_aliased_not_copied_witness :
    (syndicateToTargets pubA9 propsC4 =
      .ok ({ failedTargets := none,
             syndicatedUrls := ["https://b.example/1", "https://a.example/9"] },
           { propsC4 with
              syndication := some ["https://b.example/1", "https://a.example/9"] })) ∧
    (({ propsC4 with
         syndication := some ["https://b.example/1", "https://a.example/9"] } :
        Properties).syndication =
      propsC4.syndication.map
        (fun _ => (["https://b.example/1", "https://a.example/9"] : List String)) ∧
     ∃ ext, (["https://b.example/1", "https://a.example/9"] : List String) =
       propsC4.syndication.getD [] ++ ext) := by
  have h : syndicateToTargets pubA9 propsC4 =
      .ok ({ failedTargets := none,
             syndicatedUrls := ["https://b.example/1", "https://a.example/9"] },
           { propsC4 with
              syndication := some ["https://b.example/1", "https://a.example/9"] }) := rfl
  exact ⟨h, c4_syndication_aliased_not_copied pubA9 propsC4 _ _ h⟩

/-- C8: the claim of at-most-one failed entry per distinct requested origin
is false: two requested identifiers sharing the origin
`https://a.example`, both failing, produce `failedTargets` with the same
target uid recorded twice. -/
theorem c8_counterexample_duplicate_failed_entries :
    syndicateToTargets pubFalsy propsC8 =
      .ok ({ failedTargets := some ["https://a.example", "https://a.example"],
             syndicatedUrls := [] }, propsC8) ∧
    ¬ (["https://a.example", "https://a.example"] : List String).Nodup :=
  ⟨rfl, by decide⟩

/-- C8 (amended): `failedTargets` contains at most one entry per requested
identifier occurrence (so its length is bounded by the normalized request
sequence's length); when several requested identifiers share an origin and
all fail, the shared target's uid is recorded once per identifier, not
once per origin. -/
theorem c8_failed_bounded_by_requested_identifiers (pub : Publication)
    (props : Properties) (r : SynResult) (props' : Properties)
    (h : syndicateToTargets pub props = .ok (r, props')) :
    (r.failedTargets.getD []).length ≤
      (normalizeSyndicateTo props.mpSyndicateTo).length := by
  obtain ⟨failed, hrun, hft, hp⟩ := syndicateToTargets_inv pub props r props' h
  have hle := runLoop_failed_le pub.syndicationTargets props _ _ _ _ _ hrun
  rw [hft]
  by_cases hf : failed.length > 0
  · rw [if_pos hf]
    simpa using hle
  · rw [if_neg hf]
    simp

/-- C8 witness: the amended bound applied to the duplicate-failure run. -/
theorem c8_failed_bounded_by_requested_identifiers_witness :
    (syndicateToTargets pubFalsy propsC8 =
      .ok ({ failedTargets := some ["https://a.example", "https://a.example"],
             syndicatedUrls := [] }, propsC8)) ∧
    ((({ failedTargets := some ["https://a.example", "https://a.example"],
         syndicatedUrls := [] } : SynResult)).failedTargets.getD []).length ≤
      (normalizeSyndicateTo propsC8.mpSyndicateTo).length := by
  have h : syndicateToTargets pubFalsy propsC8 =
      .ok ({ failedTargets := some ["https://a.example", "https://a.example"],
             syndicatedUrls := [] }, propsC8) := rfl
  exact ⟨h, c8_failed_bounded_by_requested_identifiers pubFalsy propsC8 _ _ h⟩

/-- C6: unconditional idempotence is false: a target on origin
`https://a.example` whose delivery returns a URL on the foreign origin
`https://b.example` is not filtered by the dedup check on a second run
(the recorded URL's origin does not occur in the requested identifier), so
the second run re-delivers and appends a duplicate. -/
theorem c6_counterexample_foreign_origin_redelivered :
    syndicateToTargets pubForeign propsC6 = .ok (r1C6, props1C6) ∧
    (syndicateToTargets pubForeign props1C6).map (fun x => x.1.syndicatedUrls) =
      .ok ["https://b.example/1", "https://b.example/1"] ∧
    r1C6.syndicatedUrls ≠ ["https://b.example/1", "https://b.example/1"] :=
  ⟨rfl, rfl, by decide⟩

/-- C6 (amended): a second run on the state produced by a first run yields
the first run's `syndicatedUrls` unchanged provided every requested
identifier is either filtered by the dedup check against the first run's
success list (its recorded origin occurs in the identifier) or resolves to
no target; without that proviso a target whose recorded URL lives on a
foreign origin is re-attempted and appended again. -/
theorem c6_second_run_stable_when_dedup_filters (pub : Publication)
    (props : Properties) (r : SynResult) (props1 : Properties)
    (h1 : syndicateToTargets pub props = .ok (r, props1))
    (hskip : ∀ url ∈ normalizeSyndicateTo props.mpSyndicateTo,
      ∃ b, hasSyndicationUrl r.syndicatedUrls url = .ok b ∧
        (b = true ∨ getSyndicationTarget pub.syndicationTargets url = .ok none)) :
    (syndicateToTargets pub props1).map (fun x => x.1.syndicatedUrls) =
      .ok r.syndicatedUrls := by
  obtain ⟨failed, hrun, hft, hp⟩ := syndicateToTargets_inv pub props r props1 h1
  have hres := runLoop_resolves pub.syndicationTargets props _ _ _ _ hrun
  subst hp
  cases hsynd : props.syndication with
  | none =>
    have hpe : propsDuring props r.syndicatedUrls = props := by
      cases props with
      | mk u m s =>
        simp only at hsynd
        subst hsynd
        rfl
    rw [hpe, h1]
    rfl
  | some l0 =>
    have hs1 : (propsDuring props r.syndicatedUrls).syndication =
        some r.syndicatedUrls := by
      simp [propsDuring, hsynd]
    have hm : (propsDuring props r.syndicatedUrls).mpSyndicateTo =
        props.mpSyndicateTo := rfl
    have hloop : runLoop pub.syndicationTargets
        (propsDuring props r.syndicatedUrls)
        (normalizeSyndicateTo
          (propsDuring props r.syndicatedUrls).mpSyndicateTo)
        ((propsDuring props r.syndicatedUrls).syndication.getD []) [] =
        .ok ((propsDuring props r.syndicatedUrls).syndication.getD [], []) := by
      apply runLoop_all_skip
      intro url hu
      rw [hm] at hu
      refine ⟨hres url hu, ?_⟩
      rw [hs1]
      simpa using hskip url hu
    simp only [syndicateToTargets, hloop]
    rw [hs1]
    rfl

/-- C6 witness: the amended stability theorem applied to a concrete run
whose delivered URL shares its origin with the requested identifier. -/
theorem c6_second_run_stable_when_dedup_filters_witness :
    (syndicateToTargets pubA propsC6w = .ok (rC6w, props1C6w)) ∧
    (∀ url ∈ normalizeSyndicateTo propsC6w.mpSyndicateTo,
      ∃ b, hasSyndicationUrl rC6w.syndicatedUrls url = .ok b ∧
        (b = true ∨ getSyndicationTarget pubA.syndicationTargets url = .ok none)) ∧
    (syndicateToTargets pubA props1C6w).map (fun x => x.1.syndicatedUrls) =
      .ok rC6w.syndicatedUrls := by
  have h1 : syndicateToTargets pubA propsC6w = .ok (rC6w, props1C6w) := rfl
  have hs : ∀ url ∈ normalizeSyndicateTo propsC6w.mpSyndicateTo,
      ∃ b, hasSyndicationUrl rC6w.syndicatedUrls url = .ok b ∧
        (b = true ∨ getSyndicationTarget pubA.syndicationTargets url = .ok none) := by
    intro url hu
    simp only [propsC6w, normalizeSyndicateTo, List.mem_singleton] at hu
    subst hu
    exact ⟨true, rfl, Or.inl rfl⟩
  exact ⟨h1, hs, c6_second_run_stable_when_dedup_filters pubA propsC6w rC6w
    props1C6w h1 hs⟩

/-- C5: strict scalar-vs-list equivalence is false because the delivery
operation receives the post's properties object with the pending-target
field in its original shape: a target that inspects that shape returns
different URLs for the scalar and the one-element-list form of the same
identifier. -/
theorem c5_counterexample_shape_sensitive_target :
    (syndicateToTargets pubShape propsScalar).map (fun x => x.1.syndicatedUrls) =
      .ok ["https://s.example/1"] ∧
    (syndicateToTargets pubShape propsList).map (fun x => x.1.syndicatedUrls) =
      .ok ["https://l.example/1"] ∧
    (["https://s.example/1"] : List String) ≠ ["https://l.example/1"] :=
  ⟨rfl, rfl, by decide⟩

/-- C5 (amended): when no registered target's delivery outcome depends on
the shape of the pending-target field it receives, a post whose
pending-target field holds the scalar `u` and one holding the list `[u]`
produce identical reconciliation results (`syndicatedUrls` and
`failedTargets`); the returned post states still differ in the
pending-target field itself. -/
theorem c5_scalar_list_equivalence_for_shape_blind_targets
    (pub : Publication) (props : Properties) (u : String)
    (h : ∀ t ∈ pub.syndicationTargets, ∀ (q : Properties)
      (g1 g2 : SyndicateToField),
      t.syndicate { q with mpSyndicateTo := g1 } =
      t.syndicate { q with mpSyndicateTo := g2 }) :
    (syndicateToTargets pub { props with mpSyndicateTo := .scalar u }).map
      Prod.fst =
    (syndicateToTargets pub { props with mpSyndicateTo := .list [u] }).map
      Prod.fst := by
  have hl := runLoop_mp_irrel pub.syndicationTargets props (.scalar u)
    (.list [u]) h [u] (props.syndication.getD []) []
  simp only [syndicateToTargets, normalizeSyndicateTo]
  rw [hl]
  cases hrun : runLoop pub.syndicationTargets
      { props with mpSyndicateTo := SyndicateToField.list [u] } [u]
      (props.syndication.getD []) [] with
  | error e => rfl
  | ok out =>
    cases out with
    | mk syn failed => rfl

/-- C5 witness: the equivalence applied to a registry with one
shape-insensitive target. -/
theorem c5_scalar_list_equivalence_for_shape_blind_targets_witness :
    (∀ t ∈ pubConst.syndicationTargets, ∀ (q : Properties)
      (g1 g2 : SyndicateToField),
      t.syndicate { q with mpSyndicateTo := g1 } =
      t.syndicate { q with mpSyndicateTo := g2 }) ∧
    (syndicateToTargets pubConst
      { propsScalar with mpSyndicateTo := .scalar "https://a.example" }).map
        Prod.fst =
    (syndicateToTargets pubConst
      { propsScalar with mpSyndicateTo := .list ["https://a.example"] }).map
        Prod.fst := by
  have hc : ∀ t ∈ pubConst.syndicationTargets, ∀ (q : Properties)
      (g1 g2 : SyndicateToField),
      t.syndicate { q with mpSyndicateTo := g1 } =
      t.syndicate { q with mpSyndicateTo := g2 } := by
    intro t ht q g1 g2
    simp only [pubConst, List.mem_singleton] at ht
    subst ht
    rfl
  exact ⟨hc, c5_scalar_list_equivalence_for_shape_blind_targets pubConst
    propsScalar "https://a.example" hc⟩

/-- C9: the batch loop records one outcome per item in batch order (a
throwing item is caught as a failed outcome and never prevents later items
from being attempted), `failCount` equals exactly the number of throwing
items, `successCount` exactly the number of non-throwing ones, and the two
counts partition the batch. -/
theorem c9_batch_isolation_and_exact_counts
    (run : PostData → Except String SPResult) (items : List PostData) :
    processBatch run items =
      (items.map (outcomeOf run),
       items.countP (fun p => runSucceeds run p),
       items.countP (fun p => !(runSucceeds run p))) ∧
    (processBatch run items).2.1 + (processBatch run items).2.2 =
      items.length := by
  have hmain : processBatch run items =
      (items.map (outcomeOf run),
       items.countP (fun p => runSucceeds run p),
       items.countP (fun p => !(runSucceeds run p))) := by
    induction items with
    | nil => rfl
    | cons p rest ih =>
      cases hr : run p with
      | ok r =>
        simp [processBatch, hr, ih, outcomeOf, runSucceeds, List.countP_cons]
      | error e =>
        simp [processBatch, hr, ih, outcomeOf, runSucceeds, List.countP_cons]
  refine ⟨hmain, ?_⟩
  rw [hmain]
  simpa using (items.length_eq_countP_add_countP (fun p => runSucceeds run p)).symm

end Syndicate
